import Mathlib

/-!
Shallow embedding of `cmd/clean/main.go` (fumin/climate).

The program parses four kinds of climate CSV files into `[]RawDatum`
(`readOkhotsk`, `readTaiwan`, `readJapan`, `readGSOD`), inner-joins them on
calendar date driven by the `danshui` (Taiwan) sequence, filters, and writes
a merged CSV.

Modelling conventions:
* CSV input is modelled as `List (List String)` — the rows `encoding/csv`
  would deliver; the first row is the header, exactly as each `read*`
  function consumes it.  I/O errors and `csv.Reader` mechanics are out of
  scope; a parse failure is `none` (Go returns a non-nil `error`).
  Go panics on a too-short row (`row[7]` out of range); this is modelled as
  a failure (`none`) — both abort the run.
* `float64` values are modelled by `ℚ` with exact arithmetic.  All data in
  scope are plain decimal literals; `parseFloat?` covers the decimal forms
  of `strconv.ParseFloat` (no exponent/hex/Inf/NaN, which never occur here).
* Go `time.Time` holds a calendar date at midnight UTC here; it is modelled
  structurally as `Date` (year/month/day) with the validity checks
  `time.Parse` performs (month 1–12, day within the month's length,
  leap-year aware).  Comparison of `Unix()` seconds and the map keying by
  `Format(time.DateOnly)` are both injective/monotone images of the
  (year, month, day) triple for valid dates, so date values themselves are
  used for ordering and as map keys.
* Go maps are modelled as functions `Date → Option RawDatum` built by
  left-to-right insertion, later insertions overwriting earlier ones.
-/

namespace Climate

/-- A calendar date, the content of the `time.Time` values the program
builds (always midnight UTC). -/
structure Date where
  year : Nat
  month : Nat
  day : Nat
deriving DecidableEq, Repr, Inhabited

/-- Gregorian leap-year rule, as `time` uses. -/
def isLeap (y : Nat) : Bool :=
  y % 4 == 0 && (y % 100 != 0 || y % 400 == 0)

/-- Number of days of month `m` of year `y`. -/
def daysInMonth (y m : Nat) : Nat :=
  if m == 2 then (if isLeap y then 29 else 28)
  else if m == 4 || m == 6 || m == 9 || m == 11 then 30
  else 31

/-- The range checks `time.Parse` performs on a parsed date. -/
def Date.valid (d : Date) : Bool :=
  1 ≤ d.month && d.month ≤ 12 && 1 ≤ d.day && d.day ≤ daysInMonth d.year d.month

/-- Numeric key `yyyymmdd`; for valid dates its order coincides with the
order of the dates' `Unix()` seconds, which the Go code sorts by. -/
def Date.key (d : Date) : Nat :=
  d.year * 10000 + d.month * 100 + d.day

/-- Date comparison, the order `slices.SortFunc(.., cmp.Compare(a.t.Unix(), b.t.Unix()))`
sorts by. -/
def dateLe (a b : Date) : Prop := a.key ≤ b.key

instance : DecidableRel dateLe := fun a b => Nat.decLe a.key b.key

/-- Go struct `RawDatum`: one source observation. `empty = true` marks a
missing value (`v` then keeps its zero value). -/
structure RawDatum where
  t : Date
  empty : Bool
  v : ℚ
deriving DecidableEq, Repr, Inhabited

/-- Value of a decimal digit character. -/
def digit? (c : Char) : Option Nat :=
  if '0' ≤ c ∧ c ≤ '9' then some (c.toNat - '0'.toNat) else none

/-- Value of a (possibly empty) run of digit characters; fails on a
non-digit. -/
def digitsVal? (l : List Char) : Option Nat :=
  l.foldlM (fun a c => (digit? c).map (fun d => a * 10 + d)) 0

/-- One- or two-digit number: the `"1"` / `"2"` components of Go's
reference layout (month and day without forced zero padding). -/
def parseMD (s : String) : Option Nat :=
  match s.toList with
  | [c] => digit? c
  | [c₁, c₂] =>
    match digit? c₁, digit? c₂ with
    | some a, some b => some (a * 10 + b)
    | _, _ => none
  | _ => none

/-- Exactly four digits: the `"2006"` year component. -/
def parse4 (l : List Char) : Option Nat :=
  match l with
  | [a, b, c, d] => digitsVal? [a, b, c, d]
  | _ => none

/-- `time.Parse("2006-01-02", s)`: zero-padded ISO date, then the validity
range checks. -/
def parseDateOnly (s : String) : Option Date :=
  match s.toList with
  | [y₁, y₂, y₃, y₄, '-', m₁, m₂, '-', d₁, d₂] =>
    match digitsVal? [y₁, y₂, y₃, y₄], digitsVal? [m₁, m₂], digitsVal? [d₁, d₂] with
    | some y, some m, some d =>
      let dt : Date := ⟨y, m, d⟩
      if dt.valid then some dt else none
    | _, _, _ => none
  | _ => none

/-- `time.Parse("1/2/2006", s)`: the JMA date layout. -/
def parseJapanDate (s : String) : Option Date :=
  match s.splitOn "/" with
  | [ms, ds, ys] =>
    match parseMD ms, parseMD ds, parse4 ys.toList with
    | some m, some d, some y =>
      let dt : Date := ⟨y, m, d⟩
      if dt.valid then some dt else none
    | _, _, _ => none
  | _ => none

/-- `time.Parse("2006-1-2", fmt.Sprintf("%d-%s-%s", year, ms, ds))`:
the date `readOkhotsk` constructs from a column-derived year and the row's
month/day cells. -/
def mkOkhotskDate (year : Nat) (ms ds : String) : Option Date :=
  match parseMD ms with
  | none => none
  | some m =>
    match parseMD ds with
    | none => none
    | some d =>
      let dt : Date := ⟨year, m, d⟩
      if dt.valid then some dt else none

/-- Digit test used by the float parser. -/
def isDigitChar (c : Char) : Bool := decide ('0' ≤ c ∧ c ≤ '9')

/-- `strconv.ParseFloat(s, 64)` on the plain decimal literals that occur in
the data: optional sign, integer part, optional point and fraction part,
at least one digit in total.  The value is kept exactly in `ℚ`. -/
def parseFloat? (s : String) : Option ℚ :=
  let signed : ℚ × List Char :=
    match s.toList with
    | '+' :: r => (1, r)
    | '-' :: r => (-1, r)
    | r => (1, r)
  let sign := signed.1
  let cs := signed.2
  let ip := cs.takeWhile isDigitChar
  match cs.dropWhile isDigitChar with
  | [] =>
    if ip.isEmpty then none
    else (digitsVal? ip).map (fun n => sign * n)
  | '.' :: fp =>
    if fp.all isDigitChar && !(ip.isEmpty && fp.isEmpty) then
      match digitsVal? ip, digitsVal? fp with
      | some i, some f => some (sign * ((i : ℚ) + (f : ℚ) / 10 ^ fp.length))
      | _, _ => none
    else none
  | _ => none

/-- The row loop shared by the per-row parsers: parse each data row in
order, appending the result; the first failure aborts the whole read
(Go returns the wrapped error). -/
def rowLoop (f : List String → Option RawDatum) : List (List String) → Option (List RawDatum)
  | [] => some []
  | row :: rest =>
    match f row with
    | none => none
    | some d =>
      match rowLoop f rest with
      | none => none
      | some ds => some (d :: ds)

/-- One data row of `readTaiwan`: date in column 0 (`"2006-01-02"`), value
in column 7; `empty` is left at its zero value `false`. -/
def parseTaiwanRow (row : List String) : Option RawDatum :=
  match row[0]? with
  | none => none
  | some s₀ =>
    match parseDateOnly s₀ with
    | none => none
    | some t =>
      match row[7]? with
      | none => none
      | some s₇ =>
        match parseFloat? s₇ with
        | none => none
        | some v => some { t := t, empty := false, v := v }

/-- `readTaiwan`: skip the header, parse each data row in order; the first
failure aborts.  No sorting. -/
def readTaiwan (rows : List (List String)) : Option (List RawDatum) :=
  match rows with
  | [] => none
  | _ :: rest => rowLoop parseTaiwanRow rest

/-- One data row of `readJapan`: date in column 0 (`"1/2/2006"`), value in
column 1; an empty value cell flags the observation missing. -/
def parseJapanRow (row : List String) : Option RawDatum :=
  match row[0]? with
  | none => none
  | some s₀ =>
    match parseJapanDate s₀ with
    | none => none
    | some t =>
      match row[1]? with
      | none => none
      | some s₁ =>
        if s₁ = "" then some { t := t, empty := true, v := 0 }
        else
          match parseFloat? s₁ with
          | none => none
          | some v => some { t := t, empty := false, v := v }

/-- `readJapan`: skip the header, parse each data row in order. -/
def readJapan (rows : List (List String)) : Option (List RawDatum) :=
  match rows with
  | [] => none
  | _ :: rest => rowLoop parseJapanRow rest

/-- The whitespace characters `strings.TrimSpace` strips (restricted to the
ASCII ones; the data contain only plain spaces). -/
def isSpaceChar (c : Char) : Bool :=
  c = ' ' || c = '\t' || c = '\n' || c = '\r' || c = '\x0b' || c = '\x0c'

/-- `strings.TrimSpace`: drop leading and trailing whitespace. -/
def trimSpace (s : String) : String :=
  String.mk (((s.toList.dropWhile isSpaceChar).reverse.dropWhile isSpaceChar).reverse)

/-- One data row of `readGSOD`: date in column 1 (`"2006-01-02"`), value in
column 2, trimmed, parsed, and converted Fahrenheit → Celsius by
`(v - 32) * 5 / 9`; `empty` is left at its zero value `false`. -/
def parseGSODRow (row : List String) : Option RawDatum :=
  match row[1]? with
  | none => none
  | some s₁ =>
    match parseDateOnly s₁ with
    | none => none
    | some t =>
      match row[2]? with
      | none => none
      | some s₂ =>
        match parseFloat? (trimSpace s₂) with
        | none => none
        | some v => some { t := t, empty := false, v := (v - 32) * 5 / 9 }

/-- `readGSOD`: skip the header, parse each data row in order. -/
def readGSOD (rows : List (List String)) : Option (List RawDatum) :=
  match rows with
  | [] => none
  | _ :: rest => rowLoop parseGSODRow rest

/-- One cell of a `readOkhotsk` data row, at column index `col ≥ 2`.
Outer `none` is a parse error (the Go function returns an error); inner
`none` is the explicitly skipped empty February-29 cell. -/
def okhotskCell (row : List String) (col : Nat) : Option (Option RawDatum) :=
  let c₀ := row.getD 0 ""
  let c₁ := row.getD 1 ""
  let cell := row.getD col ""
  if c₀ = "2" && c₁ = "29" && cell = "" then some none
  else
    match mkOkhotskDate (1978 + col - 2) c₀ c₁ with
    | none => none
    | some t =>
      if cell = "" then some (some { t := t, empty := true, v := 0 })
      else
        match parseFloat? cell with
        | none => none
        | some v => some (some { t := t, empty := false, v := v })

/-- The column loop of one `readOkhotsk` data row: process the given
column indices in order, appending each produced datum and skipping the
February-29 cells. -/
def okhotskRowLoop (row : List String) : List Nat → Option (List RawDatum)
  | [] => some []
  | col :: cols =>
    match okhotskCell row col with
    | none => none
    | some o =>
      match okhotskRowLoop row cols with
      | none => none
      | some rest =>
        some (match o with
          | none => rest
          | some d => d :: rest)

/-- One data row of `readOkhotsk`: columns `2 .. row.length - 1` in order. -/
def readOkhotskRow (row : List String) : Option (List RawDatum) :=
  okhotskRowLoop row (List.range' 2 (row.length - 2))

/-- The order `readOkhotsk` sorts its output by (`Unix()` seconds of the
observation dates). -/
def datumLe (a b : RawDatum) : Prop := dateLe a.t b.t

instance : DecidableRel datumLe := fun a b => Nat.decLe a.t.key b.t.key

instance : IsTotal RawDatum datumLe :=
  ⟨fun a b => Nat.le_total a.t.key b.t.key⟩

instance : IsTrans RawDatum datumLe :=
  ⟨fun _ _ _ h₁ h₂ => Nat.le_trans h₁ h₂⟩

/-- `readOkhotsk`: skip the header, process every cell of every data row,
then sort the collected data ascending by date.  `slices.SortFunc` promises
only a sorted permutation (it is not stable); a deterministic sorted
permutation stands in for it. -/
def readOkhotsk (rows : List (List String)) : Option (List RawDatum) :=
  match rows with
  | [] => none
  | _ :: rest =>
    match rest.mapM readOkhotskRow with
    | none => none
    | some datss => some (List.insertionSort datumLe datss.flatten)

/-- Go struct `Datum`: one joined output record. -/
structure Datum where
  t : Date
  danshui : ℚ
  okhotsk : ℚ
  katsuura : ℚ
  nemuro : ℚ
  yelizovo : ℚ
deriving DecidableEq, Repr

/-- The date-keyed index the joiner builds for an auxiliary source
(`okhotskM` etc.): Go-map insertion in sequence order, a later insertion
for the same date overwriting an earlier one. -/
def buildM (l : List RawDatum) : Date → Option RawDatum :=
  l.foldl (fun m d => fun s => if s = d.t then some d else m s) (fun _ => none)

/-- The body of the join loop for one candidate primary datum `d` that
passed the duplicate check: the auxiliary lookups and the outlier filter,
in the order `mainWithErr` performs them (okhotsk, katsuura, nemuro:
present and not empty; yelizovo: present; then `d.v < -90`). -/
def joinOne (okM kaM neM yeM : Date → Option RawDatum) (d : RawDatum) : Option Datum :=
  match okM d.t with
  | none => none
  | some od =>
    if od.empty then none
    else
      match kaM d.t with
      | none => none
      | some kd =>
        if kd.empty then none
        else
          match neM d.t with
          | none => none
          | some nd =>
            if nd.empty then none
            else
              match yeM d.t with
              | none => none
              | some yd =>
                if d.v < -90 then none
                else some { t := d.t, danshui := d.v, okhotsk := od.v,
                            katsuura := kd.v, nemuro := nd.v, yelizovo := yd.v }

/-- The join loop of `mainWithErr`: iterate the primary (danshui) sequence;
`seen` is the `danshuiM` set of dates already encountered (a duplicate date
is skipped; otherwise the date is recorded before any filtering). -/
def joinLoop (okM kaM neM yeM : Date → Option RawDatum) (seen : List Date) :
    List RawDatum → List Datum
  | [] => []
  | d :: rest =>
    if d.t ∈ seen then joinLoop okM kaM neM yeM seen rest
    else
      match joinOne okM kaM neM yeM d with
      | none => joinLoop okM kaM neM yeM (d.t :: seen) rest
      | some r => r :: joinLoop okM kaM neM yeM (d.t :: seen) rest

/-- The join phase of `mainWithErr` (lines 283–340): build the auxiliary
indices, then run the loop over the primary sequence. -/
def join (danshui okhotsk katsuura nemuro yelizovo : List RawDatum) : List Datum :=
  joinLoop (buildM okhotsk) (buildM katsuura) (buildM nemuro) (buildM yelizovo) [] danshui

/-- Dedup keeping the first occurrence of each date not already in `seen`:
what the `danshuiM` duplicate check effectively applies to the primary
sequence. -/
def dedupFirst (seen : List Date) : List RawDatum → List RawDatum
  | [] => []
  | d :: rest =>
    if d.t ∈ seen then dedupFirst seen rest
    else d :: dedupFirst (d.t :: seen) rest

/-! ### Lemmas about the date-keyed indices -/

theorem foldl_insert_lookup (l : List RawDatum) (m : Date → Option RawDatum) (s : Date) :
    (l.foldl (fun m d => fun x => if x = d.t then some d else m x) m) s =
      (l.reverse.find? (fun d => decide (d.t = s))).or (m s) := by
  induction l generalizing m with
  | nil => simp
  | cons d rest ih =>
    simp only [List.foldl_cons, List.reverse_cons, List.find?_append]
    rw [ih]
    cases hfind : rest.reverse.find? (fun d => decide (d.t = s)) with
    | some d' => simp
    | none =>
      by_cases hst : s = d.t
      · simp [hst]
      · have hd : (decide (d.t = s)) = false := decide_eq_false (fun h => hst h.symm)
        simp only [List.find?, hd, Option.none_or]
        rw [if_neg hst]

/-- A lookup in a built index returns the last datum of the source sequence
with the looked-up date (later map insertions overwrite earlier ones). -/
theorem buildM_lookup (l : List RawDatum) (s : Date) :
    buildM l s = l.reverse.find? (fun d => decide (d.t = s)) := by
  simpa [buildM] using foldl_insert_lookup l (fun _ => none) s

theorem buildM_eq_some {l : List RawDatum} {s : Date} {d : RawDatum}
    (h : buildM l s = some d) : d ∈ l ∧ d.t = s := by
  rw [buildM_lookup] at h
  refine ⟨List.mem_reverse.mp (List.mem_of_find?_eq_some h), ?_⟩
  simpa using List.find?_some h

/-! ### Inversion of one join-loop step -/

theorem joinOne_eq_some {okM kaM neM yeM : Date → Option RawDatum} {d : RawDatum} {r : Datum}
    (h : joinOne okM kaM neM yeM d = some r) :
    ∃ od kd nd yd, okM d.t = some od ∧ od.empty = false ∧
      kaM d.t = some kd ∧ kd.empty = false ∧
      neM d.t = some nd ∧ nd.empty = false ∧
      yeM d.t = some yd ∧ ¬ d.v < -90 ∧
      r = ⟨d.t, d.v, od.v, kd.v, nd.v, yd.v⟩ := by
  unfold joinOne at h
  cases hok : okM d.t with
  | none => simp [hok] at h
  | some od =>
  simp only [hok] at h
  cases hoe : od.empty with
  | true => simp [hoe] at h
  | false =>
  simp only [hoe, Bool.false_eq_true, if_false] at h
  cases hka : kaM d.t with
  | none => simp [hka] at h
  | some kd =>
  simp only [hka] at h
  cases hke : kd.empty with
  | true => simp [hke] at h
  | false =>
  simp only [hke, Bool.false_eq_true, if_false] at h
  cases hne : neM d.t with
  | none => simp [hne] at h
  | some nd =>
  simp only [hne] at h
  cases hnee : nd.empty with
  | true => simp [hnee] at h
  | false =>
  simp only [hnee, Bool.false_eq_true, if_false] at h
  cases hye : yeM d.t with
  | none => simp [hye] at h
  | some yd =>
  simp only [hye] at h
  by_cases hv : d.v < -90
  · simp [hv] at h
  · simp only [hv, if_false, Option.some.injEq] at h
    exact ⟨od, kd, nd, yd, rfl, hoe, rfl, hke, rfl, hnee, rfl, hv, h.symm⟩

theorem joinOne_eq_some_of {okM kaM neM yeM : Date → Option RawDatum} {d : RawDatum}
    {od kd nd yd : RawDatum}
    (hok : okM d.t = some od) (hoe : od.empty = false)
    (hka : kaM d.t = some kd) (hke : kd.empty = false)
    (hne : neM d.t = some nd) (hnee : nd.empty = false)
    (hye : yeM d.t = some yd) (hv : ¬ d.v < -90) :
    joinOne okM kaM neM yeM d = some ⟨d.t, d.v, od.v, kd.v, nd.v, yd.v⟩ := by
  simp [joinOne, hok, hoe, hka, hke, hne, hnee, hye, hv]

theorem joinLoop_mem {okM kaM neM yeM : Date → Option RawDatum} :
    ∀ {seen : List Date} {l : List RawDatum} {r : Datum},
      r ∈ joinLoop okM kaM neM yeM seen l →
      ∃ d, d ∈ l ∧ joinOne okM kaM neM yeM d = some r := by
  intro seen l
  induction l generalizing seen with
  | nil => intro r h; simp [joinLoop] at h
  | cons d rest ih =>
    intro r h
    simp only [joinLoop] at h
    by_cases hd : d.t ∈ seen
    · rw [if_pos hd] at h
      obtain ⟨d', hd', h'⟩ := ih h
      exact ⟨d', List.mem_cons_of_mem _ hd', h'⟩
    · rw [if_neg hd] at h
      cases hj : joinOne okM kaM neM yeM d with
      | none =>
        simp only [hj] at h
        obtain ⟨d', hd', h'⟩ := ih h
        exact ⟨d', List.mem_cons_of_mem _ hd', h'⟩
      | some r' =>
        simp only [hj] at h
        rcases List.mem_cons.mp h with h | h
        · exact ⟨d, List.mem_cons_self _ _, by rw [hj, h]⟩
        · obtain ⟨d', hd', h'⟩ := ih h
          exact ⟨d', List.mem_cons_of_mem _ hd', h'⟩

theorem joinLoop_t_not_mem {okM kaM neM yeM : Date → Option RawDatum} :
    ∀ {seen : List Date} {l : List RawDatum} {r : Datum},
      r ∈ joinLoop okM kaM neM yeM seen l → r.t ∉ seen := by
  intro seen l
  induction l generalizing seen with
  | nil => intro r h; simp [joinLoop] at h
  | cons d rest ih =>
    intro r h
    simp only [joinLoop] at h
    by_cases hd : d.t ∈ seen
    · rw [if_pos hd] at h; exact ih h
    · rw [if_neg hd] at h
      cases hj : joinOne okM kaM neM yeM d with
      | none =>
        simp only [hj] at h
        exact fun hr => ih h (List.mem_cons_of_mem _ hr)
      | some r' =>
        simp only [hj] at h
        rcases List.mem_cons.mp h with h | h
        · subst h
          obtain ⟨od, kd, nd, yd, _, _, _, _, _, _, _, _, hr⟩ := joinOne_eq_some hj
          rw [hr]
          exact hd
        · exact fun hr => ih h (List.mem_cons_of_mem _ hr)

theorem joinLoop_dates_nodup {okM kaM neM yeM : Date → Option RawDatum} :
    ∀ (seen : List Date) (l : List RawDatum),
      ((joinLoop okM kaM neM yeM seen l).map Datum.t).Nodup := by
  intro seen l
  induction l generalizing seen with
  | nil => simp [joinLoop]
  | cons d rest ih =>
    simp only [joinLoop]
    by_cases hd : d.t ∈ seen
    · rw [if_pos hd]; exact ih seen
    · rw [if_neg hd]
      cases hj : joinOne okM kaM neM yeM d with
      | none => exact ih _
      | some r' =>
        simp only [List.map_cons, List.nodup_cons]
        refine ⟨?_, ih _⟩
        intro hmem
        obtain ⟨r'', hr'', ht⟩ := List.mem_map.mp hmem
        have hnot := joinLoop_t_not_mem hr''
        obtain ⟨od, kd, nd, yd, _, _, _, _, _, _, _, _, hre⟩ := joinOne_eq_some hj
        apply hnot
        rw [ht, hre]
        exact List.mem_cons_self _ _

theorem joinLoop_dates_sublist {okM kaM neM yeM : Date → Option RawDatum} :
    ∀ (seen : List Date) (l : List RawDatum),
      ((joinLoop okM kaM neM yeM seen l).map Datum.t).Sublist (l.map RawDatum.t) := by
  intro seen l
  induction l generalizing seen with
  | nil => simp [joinLoop]
  | cons d rest ih =>
    simp only [joinLoop]
    by_cases hd : d.t ∈ seen
    · rw [if_pos hd]
      exact List.Sublist.cons _ (ih seen)
    · rw [if_neg hd]
      cases hj : joinOne okM kaM neM yeM d with
      | none => exact List.Sublist.cons _ (ih _)
      | some r' =>
        obtain ⟨od, kd, nd, yd, _, _, _, _, _, _, _, _, hre⟩ := joinOne_eq_some hj
        simp only [List.map_cons, hre]
        exact List.Sublist.cons₂ _ (ih _)

theorem joinLoop_dedupFirst {okM kaM neM yeM : Date → Option RawDatum} :
    ∀ (seen : List Date) (l : List RawDatum),
      joinLoop okM kaM neM yeM seen (dedupFirst seen l) =
        joinLoop okM kaM neM yeM seen l := by
  intro seen l
  induction l generalizing seen with
  | nil => simp [dedupFirst]
  | cons d rest ih =>
    simp only [dedupFirst]
    by_cases hd : d.t ∈ seen
    · rw [if_pos hd, ih]
      simp only [joinLoop]
      rw [if_pos hd]
    · rw [if_neg hd]
      simp only [joinLoop]
      rw [if_neg hd, if_neg hd]
      cases hj : joinOne okM kaM neM yeM d with
      | none => simp only [hj]; exact ih _
      | some r' => simp only [hj]; rw [ih]

theorem joinLoop_skip_pre {okM kaM neM yeM : Date → Option RawDatum} (s : Date) :
    ∀ (pre : List RawDatum) (seen : List Date), (∀ x ∈ pre, x.t ≠ s) → s ∉ seen →
      ∀ (rest : List RawDatum), ∃ seen', s ∉ seen' ∧
        ((s ∈ (joinLoop okM kaM neM yeM seen (pre ++ rest)).map Datum.t) ↔
          (s ∈ (joinLoop okM kaM neM yeM seen' rest).map Datum.t)) := by
  intro pre
  induction pre with
  | nil => exact fun seen _ hseen rest => ⟨seen, hseen, by simp⟩
  | cons d pre' ih =>
    intro seen hpre hseen rest
    have hds : d.t ≠ s := hpre d (List.mem_cons_self _ _)
    have hpre' : ∀ x ∈ pre', x.t ≠ s := fun x hx => hpre x (List.mem_cons_of_mem _ hx)
    simp only [List.cons_append, joinLoop]
    by_cases hd : d.t ∈ seen
    · rw [if_pos hd]
      exact ih seen hpre' hseen rest
    · rw [if_neg hd]
      have hseen' : s ∉ d.t :: seen := by
        intro hx
        rcases List.mem_cons.mp hx with hx | hx
        · exact hds hx.symm
        · exact hseen hx
      cases hj : joinOne okM kaM neM yeM d with
      | none =>
        simp only [hj]
        exact ih _ hpre' hseen' rest
      | some r' =>
        simp only [hj]
        obtain ⟨seen', hs', hiff⟩ := ih (d.t :: seen) hpre' hseen' rest
        refine ⟨seen', hs', ?_⟩
        obtain ⟨od, kd, nd, yd, _, _, _, _, _, _, _, _, hre⟩ := joinOne_eq_some hj
        rw [List.map_cons]
        constructor
        · intro hx
          rcases List.mem_cons.mp hx with hx | hx
          · rw [hre] at hx
            exact absurd hx.symm hds
          · exact hiff.mp hx
        · intro hx
          exact List.mem_cons_of_mem _ (hiff.mpr hx)

theorem joinLoop_head_mem {okM kaM neM yeM : Date → Option RawDatum}
    {seen : List Date} {d : RawDatum} {post : List RawDatum}
    {od kd nd yd : RawDatum}
    (hseen : d.t ∉ seen)
    (hok : okM d.t = some od) (hoe : od.empty = false)
    (hka : kaM d.t = some kd) (hke : kd.empty = false)
    (hne : neM d.t = some nd) (hnee : nd.empty = false)
    (hye : yeM d.t = some yd) :
    (d.t ∈ (joinLoop okM kaM neM yeM seen (d :: post)).map Datum.t) ↔ ¬ d.v < -90 := by
  simp only [joinLoop]
  rw [if_neg hseen]
  by_cases hv : d.v < -90
  · have hj : joinOne okM kaM neM yeM d = none := by
      simp [joinOne, hok, hoe, hka, hke, hne, hnee, hye, hv]
    simp only [hj]
    constructor
    · intro hx
      obtain ⟨r, hr, ht⟩ := List.mem_map.mp hx
      have hnm := joinLoop_t_not_mem hr
      rw [ht] at hnm
      exact absurd (List.mem_cons_self _ _) hnm
    · intro hx
      exact absurd hv hx
  · have hj : joinOne okM kaM neM yeM d =
        some ⟨d.t, d.v, od.v, kd.v, nd.v, yd.v⟩ :=
      joinOne_eq_some_of hok hoe hka hke hne hnee hye hv
    simp only [hj, List.map_cons]
    exact ⟨fun _ => hv, fun _ => List.mem_cons_self _ _⟩

/-! ### Row-loop lemmas -/

theorem rowLoop_forall₂ {f : List String → Option RawDatum} :
    ∀ {rows : List (List String)} {data : List RawDatum}, rowLoop f rows = some data →
      List.Forall₂ (fun row d => f row = some d) rows data := by
  intro rows
  induction rows with
  | nil =>
    intro data h
    simp only [rowLoop, Option.some.injEq] at h
    subst h
    exact List.Forall₂.nil
  | cons row rest ih =>
    intro data h
    simp only [rowLoop] at h
    cases hf : f row with
    | none => rw [hf] at h; cases h
    | some d =>
      rw [hf] at h
      cases hl : rowLoop f rest with
      | none => rw [hl] at h; cases h
      | some ds =>
        rw [hl] at h
        simp only [Option.some.injEq] at h
        subst h
        exact List.Forall₂.cons hf (ih hl)

theorem rowLoop_map_t {f : List String → Option RawDatum}
    {rows : List (List String)} {data : List RawDatum} (h : rowLoop f rows = some data) :
    data.map (fun d => some d.t) = rows.map (fun row => (f row).map (fun d => d.t)) := by
  have h₂ := rowLoop_forall₂ h
  clear h
  induction h₂ with
  | nil => rfl
  | cons hfd _ ih => simp [hfd, ih]

/-! ### Parser inversion lemmas -/

theorem parseTaiwanRow_inv {row : List String} {d : RawDatum}
    (h : parseTaiwanRow row = some d) : d.empty = false := by
  simp only [parseTaiwanRow] at h
  cases h₀ : row[0]? with
  | none => simp [h₀] at h
  | some s₀ =>
  simp only [h₀] at h
  cases ht : parseDateOnly s₀ with
  | none => simp [ht] at h
  | some t =>
  simp only [ht] at h
  cases h₇ : row[7]? with
  | none => simp [h₇] at h
  | some s₇ =>
  simp only [h₇] at h
  cases hv : parseFloat? s₇ with
  | none => simp [hv] at h
  | some v =>
  simp only [hv, Option.some.injEq] at h
  rw [← h]

theorem parseGSODRow_inv {row : List String} {d : RawDatum}
    (h : parseGSODRow row = some d) :
    d.empty = false ∧
      ∃ s v, row[2]? = some s ∧ parseFloat? (trimSpace s) = some v ∧
        d.v = (v - 32) * 5 / 9 := by
  simp only [parseGSODRow] at h
  cases h₁ : row[1]? with
  | none => simp [h₁] at h
  | some s₁ =>
  simp only [h₁] at h
  cases ht : parseDateOnly s₁ with
  | none => simp [ht] at h
  | some t =>
  simp only [ht] at h
  cases h₂ : row[2]? with
  | none => simp [h₂] at h
  | some s₂ =>
  simp only [h₂] at h
  cases hv : parseFloat? (trimSpace s₂) with
  | none => simp [hv] at h
  | some v =>
  simp only [hv, Option.some.injEq] at h
  rw [← h]
  exact ⟨rfl, s₂, v, rfl, hv, rfl⟩

theorem mkOkhotskDate_inv {year : Nat} {ms ds : String} {t : Date}
    (h : mkOkhotskDate year ms ds = some t) :
    t.year = year ∧ parseMD ms = some t.month ∧ parseMD ds = some t.day := by
  simp only [mkOkhotskDate] at h
  cases hm : parseMD ms with
  | none => simp [hm] at h
  | some m =>
  simp only [hm] at h
  cases hd : parseMD ds with
  | none => simp [hd] at h
  | some d =>
  simp only [hd] at h
  by_cases hval : (Date.mk year m d).valid
  · rw [if_pos hval, Option.some.injEq] at h
    subst h
    exact ⟨rfl, rfl, rfl⟩
  · rw [if_neg hval] at h
    cases h

theorem okhotskCell_inv {row : List String} {col : Nat} {d : RawDatum}
    (h : okhotskCell row col = some (some d)) :
    d.t.year = 1978 + col - 2 ∧
      parseMD (row.getD 0 "") = some d.t.month ∧
      parseMD (row.getD 1 "") = some d.t.day := by
  simp only [okhotskCell] at h
  by_cases hf : (row.getD 0 "" = "2" && row.getD 1 "" = "29" &&
      row.getD col "" = "" : Bool)
  · rw [if_pos hf] at h
    simp at h
  · rw [if_neg hf] at h
    cases hmk : mkOkhotskDate (1978 + col - 2) (row.getD 0 "") (row.getD 1 "") with
    | none => rw [hmk] at h; simp at h
    | some t =>
    rw [hmk] at h
    dsimp only at h
    have ht : d.t = t := by
      by_cases hc : row.getD col "" = ""
      · rw [if_pos hc, Option.some.injEq, Option.some.injEq] at h
        rw [← h]
      · rw [if_neg hc] at h
        cases hv : parseFloat? (row.getD col "") with
        | none => rw [hv] at h; simp at h
        | some v =>
        rw [hv] at h
        dsimp only at h
        rw [Option.some.injEq, Option.some.injEq] at h
        rw [← h]
    rw [ht]
    exact mkOkhotskDate_inv hmk

theorem readOkhotsk_sorted {rows : List (List String)} {data : List RawDatum}
    (h : readOkhotsk rows = some data) : List.Sorted datumLe data := by
  cases rows with
  | nil => cases h
  | cons hd rest =>
    simp only [readOkhotsk] at h
    cases hm : rest.mapM readOkhotskRow with
    | none => rw [hm] at h; cases h
    | some datss =>
      rw [hm, Option.some.injEq] at h
      rw [← h]
      exact List.sorted_insertionSort datumLe datss.flatten

theorem rowLoop_empty_false {f : List String → Option RawDatum}
    (hf : ∀ row d, f row = some d → d.empty = false) :
    ∀ {rows : List (List String)} {data : List RawDatum},
      rowLoop f rows = some data → ∀ d ∈ data, d.empty = false := by
  intro rows
  induction rows with
  | nil =>
    intro data h
    simp only [rowLoop, Option.some.injEq] at h
    subst h
    simp
  | cons row rest ih =>
    intro data h
    simp only [rowLoop] at h
    cases hr : f row with
    | none => rw [hr] at h; cases h
    | some d =>
      rw [hr] at h
      cases hl : rowLoop f rest with
      | none => rw [hl] at h; cases h
      | some ds =>
        rw [hl, Option.some.injEq] at h
        subst h
        intro x hx
        rcases List.mem_cons.mp hx with hx | hx
        · exact hx ▸ hf row d hr
        · exact ih hl x hx

theorem readGSOD_empty_false {rows : List (List String)} {data : List RawDatum}
    (h : readGSOD rows = some data) : ∀ d ∈ data, d.empty = false := by
  cases rows with
  | nil => cases h
  | cons hd rest =>
    exact rowLoop_empty_false (fun row d hr => (parseGSODRow_inv hr).1) h

theorem readTaiwan_empty_false {rows : List (List String)} {data : List RawDatum}
    (h : readTaiwan rows = some data) : ∀ d ∈ data, d.empty = false := by
  cases rows with
  | nil => cases h
  | cons hd rest =>
    exact rowLoop_empty_false (fun row d hr => parseTaiwanRow_inv hr) h

/-! ### The claims -/

/-- Claim C1: for every primary (danshui) sequence, the joiner keeps only
the first occurrence of each calendar date — joining the primary sequence
is the same as joining it with every later duplicate of a date removed —
and consequently each date yields at most one output record (the output
dates are pairwise distinct).  No error is raised: `join` is total. -/
theorem c1_dedup_first (danshui okhotsk katsuura nemuro yelizovo : List RawDatum) :
    join danshui okhotsk katsuura nemuro yelizovo =
      join (dedupFirst [] danshui) okhotsk katsuura nemuro yelizovo ∧
    ((join danshui okhotsk katsuura nemuro yelizovo).map Datum.t).Nodup := by
  constructor
  · simp only [join]
    exact (joinLoop_dedupFirst [] danshui).symm
  · simp only [join]
    exact joinLoop_dates_nodup [] danshui

/-- Claim C2: when the yelizovo input is what `readGSOD` produced (as in
`mainWithErr`), every joined record has, for its date, a present and
non-missing observation in each of the four auxiliary indices; absence or
a missing flag in any one of them therefore excludes the date entirely. -/
theorem c2_aux_presence (rows : List (List String))
    (danshui okhotsk katsuura nemuro yelizovo : List RawDatum) (r : Datum)
    (hread : readGSOD rows = some yelizovo)
    (hr : r ∈ join danshui okhotsk katsuura nemuro yelizovo) :
    (∃ od, buildM okhotsk r.t = some od ∧ od.empty = false) ∧
    (∃ kd, buildM katsuura r.t = some kd ∧ kd.empty = false) ∧
    (∃ nd, buildM nemuro r.t = some nd ∧ nd.empty = false) ∧
    (∃ yd, buildM yelizovo r.t = some yd ∧ yd.empty = false) := by
  simp only [join] at hr
  obtain ⟨dd, _, hj⟩ := joinLoop_mem hr
  obtain ⟨od, kd, nd, yd, hok, hoe, hka, hke, hne, hnee, hyel, hv, hre⟩ :=
    joinOne_eq_some hj
  have hrt : r.t = dd.t := by rw [hre]
  rw [hrt]
  refine ⟨⟨od, hok, hoe⟩, ⟨kd, hka, hke⟩, ⟨nd, hne, hnee⟩, ⟨yd, hyel, ?_⟩⟩
  exact readGSOD_empty_false hread yd (buildM_eq_some hyel).1

/-- Witness for C2 at a concrete input: one GSOD row, all sources covering
2020-01-01, and the joined record for that date. -/
theorem c2_aux_presence_witness :
    (∃ od, buildM [⟨⟨2020,1,1⟩, false, 1⟩] (⟨2020,1,1⟩ : Date) = some od ∧
        od.empty = false) ∧
    (∃ kd, buildM [⟨⟨2020,1,1⟩, false, 2⟩] (⟨2020,1,1⟩ : Date) = some kd ∧
        kd.empty = false) ∧
    (∃ nd, buildM [⟨⟨2020,1,1⟩, false, 3⟩] (⟨2020,1,1⟩ : Date) = some nd ∧
        nd.empty = false) ∧
    (∃ yd, buildM [⟨⟨2020,1,1⟩, false, 0⟩] (⟨2020,1,1⟩ : Date) = some yd ∧
        yd.empty = false) :=
  c2_aux_presence [["h"], ["x", "2020-01-01", " 32.0 "]]
    [⟨⟨2020,1,1⟩, false, 7⟩] [⟨⟨2020,1,1⟩, false, 1⟩] [⟨⟨2020,1,1⟩, false, 2⟩]
    [⟨⟨2020,1,1⟩, false, 3⟩] [⟨⟨2020,1,1⟩, false, 0⟩]
    ⟨⟨2020,1,1⟩, 7, 1, 2, 3, 0⟩
    (by simp +decide [readGSOD, rowLoop, parseGSODRow, parseDateOnly, trimSpace,
      isSpaceChar, parseFloat?, digitsVal?, digit?, isDigitChar, Date.valid,
      daysInMonth, isLeap])
    (by decide)

/-- Claim C3: for a candidate date that passed the duplicate check (first
occurrence of its date in the primary sequence) and has full auxiliary
coverage, the outlier filter alone decides membership: the record is in
the output exactly when the primary value is not below −90.  Moreover no
output record ever carries a primary value below −90. -/
theorem c3_outlier (danshui okhotsk katsuura nemuro yelizovo pre post : List RawDatum)
    (d od kd nd yd : RawDatum)
    (hsplit : danshui = pre ++ d :: post)
    (hfirst : ∀ x ∈ pre, x.t ≠ d.t)
    (hok : buildM okhotsk d.t = some od) (hoe : od.empty = false)
    (hka : buildM katsuura d.t = some kd) (hke : kd.empty = false)
    (hne : buildM nemuro d.t = some nd) (hnee : nd.empty = false)
    (hye : buildM yelizovo d.t = some yd) :
    (d.t ∈ (join danshui okhotsk katsuura nemuro yelizovo).map Datum.t ↔
      ¬ d.v < -90) ∧
    (∀ r ∈ join danshui okhotsk katsuura nemuro yelizovo, ¬ r.danshui < -90) := by
  constructor
  · subst hsplit
    simp only [join]
    obtain ⟨seen', hs', hiff⟩ :=
      @joinLoop_skip_pre (buildM okhotsk) (buildM katsuura) (buildM nemuro)
        (buildM yelizovo) d.t pre [] hfirst (by simp) (d :: post)
    rw [hiff]
    exact joinLoop_head_mem hs' hok hoe hka hke hne hnee hye
  · intro r hr
    simp only [join] at hr
    obtain ⟨dd, _, hj⟩ := joinLoop_mem hr
    obtain ⟨_, _, _, _, _, _, _, _, _, _, _, hv, hre⟩ := joinOne_eq_some hj
    rw [hre]
    exact hv

/-- Witness for C3 at concrete inputs: with full coverage of 2020-01-01, a
primary value of −89.9 yields an output record for that date, while −95.0
yields none. -/
theorem c3_outlier_witness :
    ((⟨2020,1,1⟩ : Date) ∈
      (join [⟨⟨2020,1,1⟩, false, -899/10⟩] [⟨⟨2020,1,1⟩, false, 1⟩]
        [⟨⟨2020,1,1⟩, false, 2⟩] [⟨⟨2020,1,1⟩, false, 3⟩]
        [⟨⟨2020,1,1⟩, false, 4⟩]).map Datum.t) ∧
    ((⟨2020,1,1⟩ : Date) ∉
      (join [⟨⟨2020,1,1⟩, false, -95⟩] [⟨⟨2020,1,1⟩, false, 1⟩]
        [⟨⟨2020,1,1⟩, false, 2⟩] [⟨⟨2020,1,1⟩, false, 3⟩]
        [⟨⟨2020,1,1⟩, false, 4⟩]).map Datum.t) := by
  constructor
  · exact (c3_outlier [⟨⟨2020,1,1⟩, false, -899/10⟩] [⟨⟨2020,1,1⟩, false, 1⟩]
      [⟨⟨2020,1,1⟩, false, 2⟩] [⟨⟨2020,1,1⟩, false, 3⟩] [⟨⟨2020,1,1⟩, false, 4⟩]
      [] [] ⟨⟨2020,1,1⟩, false, -899/10⟩
      ⟨⟨2020,1,1⟩, false, 1⟩ ⟨⟨2020,1,1⟩, false, 2⟩ ⟨⟨2020,1,1⟩, false, 3⟩
      ⟨⟨2020,1,1⟩, false, 4⟩ rfl (by simp) rfl rfl rfl rfl rfl rfl rfl).1.mpr
      (by norm_num)
  · intro hmem
    exact absurd ((c3_outlier [⟨⟨2020,1,1⟩, false, -95⟩] [⟨⟨2020,1,1⟩, false, 1⟩]
      [⟨⟨2020,1,1⟩, false, 2⟩] [⟨⟨2020,1,1⟩, false, 3⟩] [⟨⟨2020,1,1⟩, false, 4⟩]
      [] [] ⟨⟨2020,1,1⟩, false, -95⟩
      ⟨⟨2020,1,1⟩, false, 1⟩ ⟨⟨2020,1,1⟩, false, 2⟩ ⟨⟨2020,1,1⟩, false, 3⟩
      ⟨⟨2020,1,1⟩, false, 4⟩ rfl (by simp) rfl rfl rfl rfl rfl rfl rfl).1.mp hmem)
      (by norm_num)

/-- Counterexample to claim C4 as stated: with a primary sequence whose
dates are out of order (nothing sorts the danshui parse result or the join
output), the joined records are not in ascending date order. -/
theorem c4_counterexample :
    ¬ List.Pairwise dateLe
      ((join [⟨⟨2020,1,2⟩, false, 5⟩, ⟨⟨2020,1,1⟩, false, 6⟩]
        [⟨⟨2020,1,1⟩, false, 1⟩, ⟨⟨2020,1,2⟩, false, 1⟩]
        [⟨⟨2020,1,1⟩, false, 1⟩, ⟨⟨2020,1,2⟩, false, 1⟩]
        [⟨⟨2020,1,1⟩, false, 1⟩, ⟨⟨2020,1,2⟩, false, 1⟩]
        [⟨⟨2020,1,1⟩, false, 1⟩, ⟨⟨2020,1,2⟩, false, 1⟩]).map Datum.t) := by
  decide

/-- Claim C4 as amended: the joined records appear exactly in primary-
sequence order — their dates form a sublist of the danshui date sequence —
and they are ascending by date whenever the parsed primary sequence is
ascending (the code itself never sorts, so an unsorted primary input
propagates to the output). -/
theorem c4_order (danshui okhotsk katsuura nemuro yelizovo : List RawDatum) :
    ((join danshui okhotsk katsuura nemuro yelizovo).map Datum.t).Sublist
      (danshui.map RawDatum.t) ∧
    (List.Pairwise dateLe (danshui.map RawDatum.t) →
      List.Pairwise dateLe
        ((join danshui okhotsk katsuura nemuro yelizovo).map Datum.t)) := by
  have hsub : ((join danshui okhotsk katsuura nemuro yelizovo).map Datum.t).Sublist
      (danshui.map RawDatum.t) := by
    simp only [join]
    exact joinLoop_dates_sublist [] danshui
  exact ⟨hsub, fun hp => hp.sublist hsub⟩

/-- Witness for C4 (amended) at a concrete input: a date-sorted primary
sequence yields a date-sorted join output. -/
theorem c4_order_witness :
    List.Pairwise dateLe
      ((join [⟨⟨2020,1,1⟩, false, 6⟩, ⟨⟨2020,1,2⟩, false, 5⟩]
        [⟨⟨2020,1,1⟩, false, 1⟩, ⟨⟨2020,1,2⟩, false, 1⟩]
        [⟨⟨2020,1,1⟩, false, 1⟩, ⟨⟨2020,1,2⟩, false, 1⟩]
        [⟨⟨2020,1,1⟩, false, 1⟩, ⟨⟨2020,1,2⟩, false, 1⟩]
        [⟨⟨2020,1,1⟩, false, 1⟩, ⟨⟨2020,1,2⟩, false, 1⟩]).map Datum.t) :=
  (c4_order [⟨⟨2020,1,1⟩, false, 6⟩, ⟨⟨2020,1,2⟩, false, 5⟩]
    [⟨⟨2020,1,1⟩, false, 1⟩, ⟨⟨2020,1,2⟩, false, 1⟩]
    [⟨⟨2020,1,1⟩, false, 1⟩, ⟨⟨2020,1,2⟩, false, 1⟩]
    [⟨⟨2020,1,1⟩, false, 1⟩, ⟨⟨2020,1,2⟩, false, 1⟩]
    [⟨⟨2020,1,1⟩, false, 1⟩, ⟨⟨2020,1,2⟩, false, 1⟩]).2 (by decide)

/-- Counterexample to claim C5 as stated: `readTaiwan` does not sort; fed
rows whose dates descend, it returns the observations in row order, which
is not non-decreasing by date. -/
theorem c5_counterexample :
    (readTaiwan [["h"],
        ["2020-01-02", "", "", "", "", "", "", "1.5"],
        ["2020-01-01", "", "", "", "", "", "", "2.5"]]).map
      (fun l => l.map (fun d => d.t)) =
      some [⟨2020,1,2⟩, ⟨2020,1,1⟩] ∧
    ¬ List.Pairwise dateLe [(⟨2020,1,2⟩ : Date), ⟨2020,1,1⟩] := by
  exact ⟨by decide, by decide⟩

/-- Claim C5 as amended: only the sea-ice parser sorts — `readOkhotsk`
output is always non-decreasing by date; `readTaiwan`, `readJapan` and
`readGSOD` each emit exactly one observation per data row in row order, so
duplicate source dates among them keep their stable relative order and
their output is date-sorted only when the input file is.  (`readOkhotsk`
sorts with `slices.SortFunc`, which guarantees no stable order among equal
dates, so the stability guarantee holds for the row-order parsers.) -/
theorem c5_parser_order :
    (∀ (rows : List (List String)) (data : List RawDatum),
      readOkhotsk rows = some data → List.Sorted datumLe data) ∧
    (∀ (rows : List (List String)) (data : List RawDatum),
      readTaiwan rows = some data →
        data.map (fun d => some d.t) =
          rows.tail.map (fun row => (parseTaiwanRow row).map (fun d => d.t))) ∧
    (∀ (rows : List (List String)) (data : List RawDatum),
      readJapan rows = some data →
        data.map (fun d => some d.t) =
          rows.tail.map (fun row => (parseJapanRow row).map (fun d => d.t))) ∧
    (∀ (rows : List (List String)) (data : List RawDatum),
      readGSOD rows = some data →
        data.map (fun d => some d.t) =
          rows.tail.map (fun row => (parseGSODRow row).map (fun d => d.t))) := by
  refine ⟨fun rows data h => readOkhotsk_sorted h, ?_, ?_, ?_⟩
  all_goals
    intro rows data h
    cases rows with
    | nil => cases h
    | cons hd rest => exact rowLoop_map_t h

/-- Witness for C5 (amended) at concrete inputs: a parsed sea-ice file
whose raw cells are grouped by day-of-year comes back sorted by date, and
a GSOD file with two rows for 2020-01-02 comes back with both
observations in row order. -/
theorem c5_parser_order_witness :
    List.Sorted datumLe
      [⟨⟨1978,1,2⟩, true, 0⟩, ⟨⟨1978,1,3⟩, true, 0⟩,
       ⟨⟨1979,1,2⟩, true, 0⟩, ⟨⟨1979,1,3⟩, true, 0⟩] ∧
    ([(⟨⟨2020,1,2⟩, false, 0⟩ : RawDatum), ⟨⟨2020,1,2⟩, false, 10⟩].map
        (fun d => some d.t) =
      [["x", "2020-01-02", " 32.0 "], ["x", "2020-01-02", " 50.0 "]].map
        (fun row => (parseGSODRow row).map (fun d => d.t))) :=
  ⟨c5_parser_order.1 [["h"], ["1", "2", "", ""], ["1", "3", "", ""]]
    [⟨⟨1978,1,2⟩, true, 0⟩, ⟨⟨1978,1,3⟩, true, 0⟩,
     ⟨⟨1979,1,2⟩, true, 0⟩, ⟨⟨1979,1,3⟩, true, 0⟩] (by decide),
   c5_parser_order.2.2.2
    [["h"], ["x", "2020-01-02", " 32.0 "], ["x", "2020-01-02", " 50.0 "]]
    [⟨⟨2020,1,2⟩, false, 0⟩, ⟨⟨2020,1,2⟩, false, 10⟩]
    (by
      simp +decide [readGSOD, rowLoop, parseGSODRow, parseDateOnly, trimSpace,
        isSpaceChar, parseFloat?, digitsVal?, digit?, isDigitChar, Date.valid,
        daysInMonth, isLeap]
      norm_num)⟩

/-- Claim C6: every accepted date/value cell of a sea-ice data row, at
column `col` of the data columns (`col ≥ 2`), produces an observation
whose date decomposes back into year `1978 + (col − 2)` and the row's
month and day cells (as parsed numbers). -/
theorem c6_okhotsk_year {row : List String} {col : Nat} {d : RawDatum}
    (h₂ : 2 ≤ col) (h : okhotskCell row col = some (some d)) :
    d.t.year = 1978 + (col - 2) ∧
      parseMD (row.getD 0 "") = some d.t.month ∧
      parseMD (row.getD 1 "") = some d.t.day := by
  obtain ⟨hy, hm, hd⟩ := okhotskCell_inv h
  refine ⟨?_, hm, hd⟩
  rw [hy]
  omega

/-- Witness for C6 at a concrete cell: row with month cell `"1"`, day cell
`"3"`, and an empty value in column 3 yields the 1979-01-03 observation. -/
theorem c6_okhotsk_year_witness :
    (⟨⟨1979,1,3⟩, true, 0⟩ : RawDatum).t.year = 1978 + (3 - 2) ∧
      parseMD (["1", "3", "", ""].getD 0 "") =
        some (⟨⟨1979,1,3⟩, true, 0⟩ : RawDatum).t.month ∧
      parseMD (["1", "3", "", ""].getD 1 "") =
        some (⟨⟨1979,1,3⟩, true, 0⟩ : RawDatum).t.day :=
  c6_okhotsk_year (by decide) (by decide)

/-- Claim C7: every row accepted by `readGSOD` stores the trimmed, parsed
column-2 value converted from Fahrenheit to Celsius by `(v − 32) * 5 / 9`
(and is never flagged missing). -/
theorem c7_fahrenheit (hrow : List String) (rest : List (List String))
    (data : List RawDatum) (h : readGSOD (hrow :: rest) = some data) :
    List.Forall₂ (fun row (d : RawDatum) => d.empty = false ∧
      ∃ s v, row[2]? = some s ∧ parseFloat? (trimSpace s) = some v ∧
        d.v = (v - 32) * 5 / 9) rest data := by
  simp only [readGSOD] at h
  exact (rowLoop_forall₂ h).imp (fun _ _ hr => parseGSODRow_inv hr)

/-- Witness for C7 at a concrete input: the value cell `" 32.0 "` parses
(after trimming) to 32 °F and is stored as 0 °C. -/
theorem c7_fahrenheit_witness :
    List.Forall₂ (fun row (d : RawDatum) => d.empty = false ∧
      ∃ s v, row[2]? = some s ∧ parseFloat? (trimSpace s) = some v ∧
        d.v = (v - 32) * 5 / 9)
      [["x", "2020-01-01", " 32.0 "]] [⟨⟨2020,1,1⟩, false, 0⟩] :=
  c7_fahrenheit ["h"] [["x", "2020-01-01", " 32.0 "]] [⟨⟨2020,1,1⟩, false, 0⟩]
    (by simp +decide [readGSOD, rowLoop, parseGSODRow, parseDateOnly, trimSpace,
      isSpaceChar, parseFloat?, digitsVal?, digit?, isDigitChar, Date.valid,
      daysInMonth, isLeap])

/-- Claim C9: the auxiliary date-keyed index keeps, for each date, exactly
the last observation with that date in sequence order (later map
insertions overwrite earlier ones): if nothing after `d` shares its date,
the lookup at `d.t` returns `d`, whatever duplicates precede it; in
general a lookup returns the last matching element.  Building the index is
total — duplicates are never an error. -/
theorem c9_last_occurrence (l₁ l₂ : List RawDatum) (d : RawDatum)
    (h : ∀ x ∈ l₂, x.t ≠ d.t) :
    buildM (l₁ ++ d :: l₂) d.t = some d ∧
    ∀ (l : List RawDatum) (s : Date),
      buildM l s = l.reverse.find? (fun x => decide (x.t = s)) := by
  refine ⟨?_, fun l s => buildM_lookup l s⟩
  rw [buildM_lookup, List.reverse_append, List.reverse_cons, List.find?_append,
    List.find?_append]
  have h₂ : l₂.reverse.find? (fun x => decide (x.t = d.t)) = none := by
    rw [List.find?_eq_none]
    intro x hx
    simp [h x (List.mem_reverse.mp hx)]
  rw [h₂]
  simp [List.find?]

/-- Witness for C9 at a concrete input: two observations share 2020-01-01;
the index lookup returns the second (last) one. -/
theorem c9_last_occurrence_witness :
    buildM [⟨⟨2020,1,1⟩, false, 1⟩, ⟨⟨2020,1,1⟩, false, 2⟩] ⟨2020,1,1⟩ =
      some ⟨⟨2020,1,1⟩, false, 2⟩ :=
  (c9_last_occurrence [⟨⟨2020,1,1⟩, false, 1⟩] [] ⟨⟨2020,1,1⟩, false, 2⟩
    (by simp)).1

/-- Claim C10: `readTaiwan` and `readGSOD` never flag an observation
missing (`empty` keeps its zero value `false`); consequently, although the
join's yelizovo lookup tests only presence and not the missing flag, every
joined record's yelizovo value comes from a present, non-missing
observation when the yelizovo input is what `readGSOD` produced. -/
theorem c10_never_missing (rowsT rowsG : List (List String))
    (dataT danshui okhotsk katsuura nemuro yelizovo : List RawDatum) (r : Datum)
    (hT : readTaiwan rowsT = some dataT)
    (hG : readGSOD rowsG = some yelizovo)
    (hr : r ∈ join danshui okhotsk katsuura nemuro yelizovo) :
    (∀ d ∈ dataT, d.empty = false) ∧ (∀ d ∈ yelizovo, d.empty = false) ∧
      ∃ yd, buildM yelizovo r.t = some yd ∧ yd.empty = false ∧
        r.yelizovo = yd.v := by
  refine ⟨readTaiwan_empty_false hT, readGSOD_empty_false hG, ?_⟩
  simp only [join] at hr
  obtain ⟨dd, _, hj⟩ := joinLoop_mem hr
  obtain ⟨od, kd, nd, yd, _, _, _, _, _, _, hyel, _, hre⟩ := joinOne_eq_some hj
  have hrt : r.t = dd.t := by rw [hre]
  exact ⟨yd, by rw [hrt]; exact hyel,
    readGSOD_empty_false hG yd (buildM_eq_some hyel).1, by rw [hre]⟩

/-- Witness for C10 at a concrete input: one Taiwan row, one GSOD row
(32 °F ↦ 0 °C), full coverage of 2020-01-01, and its joined record. -/
theorem c10_never_missing_witness :
    (∀ d ∈ [(⟨⟨2020,1,1⟩, false, 2⟩ : RawDatum)], d.empty = false) ∧
    (∀ d ∈ [(⟨⟨2020,1,1⟩, false, 0⟩ : RawDatum)], d.empty = false) ∧
      ∃ yd, buildM [⟨⟨2020,1,1⟩, false, 0⟩] (⟨2020,1,1⟩ : Date) = some yd ∧
        yd.empty = false ∧ (⟨⟨2020,1,1⟩, 6, 1, 1, 1, 0⟩ : Datum).yelizovo = yd.v :=
  c10_never_missing [["h"], ["2020-01-01", "", "", "", "", "", "", "2.0"]]
    [["h"], ["x", "2020-01-01", " 32.0 "]]
    [⟨⟨2020,1,1⟩, false, 2⟩] [⟨⟨2020,1,1⟩, false, 6⟩] [⟨⟨2020,1,1⟩, false, 1⟩]
    [⟨⟨2020,1,1⟩, false, 1⟩] [⟨⟨2020,1,1⟩, false, 1⟩] [⟨⟨2020,1,1⟩, false, 0⟩]
    ⟨⟨2020,1,1⟩, 6, 1, 1, 1, 0⟩
    (by simp +decide [readTaiwan, rowLoop, parseTaiwanRow, parseDateOnly,
      parseFloat?, digitsVal?, digit?, isDigitChar, Date.valid, daysInMonth,
      isLeap])
    (by simp +decide [readGSOD, rowLoop, parseGSODRow, parseDateOnly, trimSpace,
      isSpaceChar, parseFloat?, digitsVal?, digit?, isDigitChar, Date.valid,
      daysInMonth, isLeap])
    (by decide)

end Climate
